import Mathlib

/-!
# Verification of the asset prefetch-and-cache pipeline (`Cache.js`)

Shallow embedding of the cache pipeline of this repository:
`prefetchAssets`, `saveAssetMeta`, `clearAllCaches`, `getCacheInfo`.

Modelling conventions:
* The IndexedDB object store `xr_asset_meta` (keyed by `url`, `store.put` is an
  upsert) is modelled as a list of records with at most one record per url;
  enumeration order is not semantically significant.
* The Cache Storage namespace `xr-cache-v1` (the Content Cache) is modelled as
  the list of urls it holds an entry for.
* The outside world (network responses, body streams, storage write failures,
  `Date.now()` at metadata-save time) is an environment `Env` mapping a url to
  the outcome its `fetch` would produce.  Reads of the metadata store are
  modelled as infallible; the fallible effects the control flow branches on
  (`fetch` rejection, non-ok status, `cache.put` rejection, body-read
  rejection, `saveAssetMeta` rejection) are each in the environment.
* Callback invocations are recorded as an event trace; `onProgress` first
  arguments are rationals, since the code reports fractional per-chunk
  progress `completed + receivedLength / contentLength`.
-/

namespace XRCache

/-- An entry of the asset list passed to `prefetchAssets`
(`{url, name}` in `assets.json`). -/
structure AssetRequest where
  url : String
  name : String
deriving Repr, DecidableEq

/-- The argument `meta` of `saveAssetMeta(url, meta)`.  The caller may or may
not include a `timestamp` property of its own (in JS any property can be
present or absent); `prefetchAssets` itself never passes one. -/
structure MetaInput where
  size : Nat
  contentType : Option String
  etag : Option String
  lastModified : Option String
  timestamp : Option Nat
deriving Repr, DecidableEq

/-- A record stored in the `xr_asset_meta` object store: the object
`{ url, ...meta, timestamp: Date.now() }` built by `saveAssetMeta`. -/
structure MetaRecord where
  url : String
  size : Nat
  contentType : Option String
  etag : Option String
  lastModified : Option String
  timestamp : Nat
deriving Repr, DecidableEq

/-- The metadata store: at most one record per `url` (IndexedDB keyPath). -/
abbrev MetaStore := List MetaRecord

/-- `getAssetMeta(url)`: `store.get(url)` on the keyed object store. -/
def lookupMeta (store : MetaStore) (url : String) : Option MetaRecord :=
  store.find? (fun r => r.url == url)

/-- `store.put(data)`: upsert keyed by `url` — replaces the record with the
same key if present, otherwise adds the record. -/
def putMeta (store : MetaStore) (rec : MetaRecord) : MetaStore :=
  store.filter (fun r => ¬ (r.url == rec.url)) ++ [rec]

/-- `saveAssetMeta(url, meta)`: builds `{ url, ...meta, timestamp: Date.now() }`
and `put`s it.  Note the `timestamp: Date.now()` property is written after the
spread of `meta`, so it shadows any caller-supplied `meta.timestamp`;
`now` is the value of `Date.now()` at the call. -/
def saveAssetMeta (now : Nat) (url : String) (meta : MetaInput)
    (store : MetaStore) : MetaStore :=
  putMeta store
    { url := url, size := meta.size, contentType := meta.contentType,
      etag := meta.etag, lastModified := meta.lastModified, timestamp := now }

theorem find?_filter_of_imp {α : Type} (l : List α) (p q : α → Bool)
    (h : ∀ a, p a = true → q a = true) :
    (l.filter q).find? p = l.find? p := by
  induction l with
  | nil => rfl
  | cons a rest ih =>
    by_cases hq : q a = true
    · by_cases hp : p a = true <;> simp [List.filter_cons, hq, List.find?_cons, hp, ih]
    · have hp : p a = false := by
        cases hpa : p a
        · rfl
        · exact absurd (h a hpa) hq
      simp [List.filter_cons, hq, List.find?_cons, hp, ih]

theorem lookupMeta_putMeta (store : MetaStore) (rec : MetaRecord) (u : String) :
    lookupMeta (putMeta store rec) u =
      if rec.url = u then some rec else lookupMeta store u := by
  unfold lookupMeta putMeta
  rw [List.find?_append]
  by_cases h : rec.url = u
  · have hnone :
        (store.filter fun r => ¬ (r.url == rec.url)).find? (fun r => r.url == u) = none := by
      apply List.find?_eq_none.2
      intro x hx
      rw [List.mem_filter] at hx
      have hx2 := hx.2
      simp only [beq_iff_eq, decide_not, Bool.not_eq_true', decide_eq_false_iff_not] at hx2 ⊢
      intro hxu
      exact hx2 (hxu.trans h.symm)
    rw [hnone]
    simp [List.find?, h]
  · rw [find?_filter_of_imp]
    · simp [List.find?, h, show (rec.url == u) = false by simpa using h]
    · intro a ha
      simp only [beq_iff_eq] at ha
      simp only [beq_iff_eq, decide_not, Bool.not_eq_true', decide_eq_false_iff_not]
      intro hcontra
      exact h (hcontra ▸ ha)

/-- An HTTP response together with the behaviour of the effects the per-item
code performs on it.  `contentLength` is the already-parsed value of
`parseInt(response.headers.get('content-length') || '0', 10)` (absent or
unparsable header both yield `0`).  `chunks` are the byte lengths of the
`reader.read()` chunks delivered before the stream either finishes
(`readError = none`) or rejects (`readError = some msg`).  `cachePutError`
and `saveMetaError` model rejection of `caches.open`/`cache.put` and of
`saveAssetMeta`; `saveTime` is `Date.now()` at the metadata save. -/
structure HttpResponse where
  ok : Bool
  status : Nat
  statusText : String
  contentLength : Nat
  contentType : Option String
  etag : Option String
  lastModified : Option String
  cachePutError : Option String
  chunks : List Nat
  readError : Option String
  saveMetaError : Option String
  saveTime : Nat
deriving Repr, DecidableEq

/-- Outcome of `fetch(url)`: either the promise rejects (network error) or a
response arrives. -/
inductive FetchResult where
  | netError (msg : String)
  | response (r : HttpResponse)
deriving Repr, DecidableEq

/-- The outside world: what fetching each url produces. -/
def Env : Type := String → FetchResult

/-- The durable stores shared by the pipeline, the Content Cache
(`xr-cache-v1`, modelled by the urls it has entries for) and the metadata
store. -/
structure Store where
  meta : MetaStore
  cache : List String
deriving Repr, DecidableEq

/-- `cache.put(url, response.clone())`: the Content Cache gains an entry for
`url` (replacing any previous entry wholesale; presence is what we track). -/
def cacheAdd (cache : List String) (url : String) : List String :=
  if url ∈ cache then cache else cache ++ [url]

/-- One callback invocation or network access performed by `prefetchAssets`,
in trace order.  `progress` carries the first argument of `onProgress` as a
rational, because chunk progress is `completed + receivedLength/contentLength`. -/
inductive Event where
  | fileStart (url name : String)
  | progress (value : ℚ) (total : Nat) (name : String)
  | fileComplete (url name : String) (size : Nat)
  | fileError (url name : String) (error : String)
  | fetch (url : String)
deriving Repr, DecidableEq

/-- Is this event a network access? -/
def Event.isFetch : Event → Bool
  | .fetch _ => true
  | _ => false

/-- The `onProgress` first argument, when the event is a progress event. -/
def Event.progressValue? : Event → Option ℚ
  | .progress v _ _ => some v
  | _ => none

/-- The sequence of `onProgress` first arguments in a trace. -/
def progressValues (events : List Event) : List ℚ :=
  events.filterMap Event.progressValue?

/-- One element pushed onto `results`: `{url, name, cached: true, size}` for a
cache hit, `{url, name, cached: false, size}` for a download,
`{url, name, error}` for a failure. -/
inductive ResultEntry where
  | cached (url name : String) (size : Nat)
  | downloaded (url name : String) (size : Nat)
  | failed (url name : String) (error : String)
deriving Repr, DecidableEq

def ResultEntry.url : ResultEntry → String
  | .cached u _ _ => u
  | .downloaded u _ _ => u
  | .failed u _ _ => u

def ResultEntry.name : ResultEntry → String
  | .cached _ n _ => n
  | .downloaded _ n _ => n
  | .failed _ n _ => n

def ResultEntry.isCached : ResultEntry → Bool
  | .cached _ _ _ => true
  | _ => false

def ResultEntry.isDownloaded : ResultEntry → Bool
  | .downloaded _ _ _ => true
  | _ => false

def ResultEntry.isFailed : ResultEntry → Bool
  | .failed _ _ _ => true
  | _ => false

/-- The `size` field of the entry (`none` for a failed entry, which instead
carries `error`). -/
def ResultEntry.size? : ResultEntry → Option Nat
  | .cached _ _ s => some s
  | .downloaded _ _ s => some s
  | .failed _ _ _ => none

/-- The per-chunk progress callbacks of the body-read loop: after each chunk
`receivedLength` grows by the chunk's length and, when `contentLength > 0`,
`onProgress(completed + receivedLength/contentLength, total, name)` fires. -/
def chunkEvents (completed total : Nat) (name : String) (contentLength : Nat) :
    Nat → List Nat → List Event
  | _, [] => []
  | received, c :: rest =>
    let received' := received + c
    (if 0 < contentLength then
      [Event.progress ((completed : ℚ) + (received' : ℚ) / (contentLength : ℚ)) total name]
     else [])
    ++ chunkEvents completed total name contentLength received' rest

/-- The `catch` block of the per-item loop: `onFileError(url, name, error)`,
then `completed++`, then `onProgress(completed, total, name)`. -/
def catchEvents (url name : String) (completed total : Nat) (err : String) :
    List Event :=
  [Event.fileError url name err,
   Event.progress ((completed + 1 : Nat) : ℚ) total name]

/-- Result of one iteration of the `for` loop of `prefetchAssets`. -/
structure StepResult where
  store : Store
  completed : Nat
  events : List Event
  entry : ResultEntry
deriving Repr, DecidableEq

/-- One iteration of the `for (const asset of assetList)` loop of
`prefetchAssets`, for the asset `a`, starting from stores `st` and counter
`completed`.  Follows the source's control flow: `onFileStart`; metadata
lookup (hit → no fetch); `fetch`; `!response.ok` throws; `cache.put` of the
clone; the body-read loop with fractional progress; `saveAssetMeta`; the
success callbacks; any throw lands in the `catch` block. -/
def processAsset (env : Env) (total : Nat) (st : Store) (completed : Nat)
    (a : AssetRequest) : StepResult :=
  let start := Event.fileStart a.url a.name
  match lookupMeta st.meta a.url with
  | some rec =>
    { store := st, completed := completed + 1,
      events := [start,
        Event.progress ((completed + 1 : Nat) : ℚ) total a.name,
        Event.fileComplete a.url a.name rec.size],
      entry := ResultEntry.cached a.url a.name rec.size }
  | none =>
    match env a.url with
    | .netError msg =>
      { store := st, completed := completed + 1,
        events := start :: Event.fetch a.url ::
          catchEvents a.url a.name completed total msg,
        entry := ResultEntry.failed a.url a.name msg }
    | .response r =>
      if r.ok = false then
        let msg := "HTTP " ++ toString r.status ++ ": " ++ r.statusText
        { store := st, completed := completed + 1,
          events := start :: Event.fetch a.url ::
            catchEvents a.url a.name completed total msg,
          entry := ResultEntry.failed a.url a.name msg }
      else
        match r.cachePutError with
        | some msg =>
          { store := st, completed := completed + 1,
            events := start :: Event.fetch a.url ::
              catchEvents a.url a.name completed total msg,
            entry := ResultEntry.failed a.url a.name msg }
        | none =>
          let cache' := cacheAdd st.cache a.url
          let chEvs := chunkEvents completed total a.name r.contentLength 0 r.chunks
          match r.readError with
          | some msg =>
            { store := { st with cache := cache' }, completed := completed + 1,
              events := start :: Event.fetch a.url ::
                (chEvs ++ catchEvents a.url a.name completed total msg),
              entry := ResultEntry.failed a.url a.name msg }
          | none =>
            let received := r.chunks.sum
            match r.saveMetaError with
            | some msg =>
              { store := { st with cache := cache' }, completed := completed + 1,
                events := start :: Event.fetch a.url ::
                  (chEvs ++ catchEvents a.url a.name completed total msg),
                entry := ResultEntry.failed a.url a.name msg }
            | none =>
              { store :=
                  { meta := saveAssetMeta r.saveTime a.url
                      { size := received, contentType := r.contentType,
                        etag := r.etag, lastModified := r.lastModified,
                        timestamp := none } st.meta,
                    cache := cache' },
                completed := completed + 1,
                events := start :: Event.fetch a.url ::
                  (chEvs ++
                    [Event.progress ((completed + 1 : Nat) : ℚ) total a.name,
                     Event.fileComplete a.url a.name received]),
                entry := ResultEntry.downloaded a.url a.name received }

/-- What a whole run returns and leaves behind: the final stores, the final
`completed` counter, the full callback/network trace and the `results` list. -/
structure RunOutput where
  store : Store
  completed : Nat
  events : List Event
  results : List ResultEntry
deriving Repr, DecidableEq

/-- The loop of `prefetchAssets` from an intermediate state. -/
def runFrom (env : Env) (total : Nat) (st : Store) (completed : Nat) :
    List AssetRequest → RunOutput
  | [] => { store := st, completed := completed, events := [], results := [] }
  | a :: rest =>
    let step := processAsset env total st completed a
    let out := runFrom env total step.store step.completed rest
    { store := out.store, completed := out.completed,
      events := step.events ++ out.events,
      results := step.entry :: out.results }

/-- `prefetchAssets(assetList, callbacks)`: `total = assetList.length`,
`completed = 0`, then the sequential per-asset loop; always returns the
accumulated `results`. -/
def prefetchAssets (env : Env) (st : Store) (assetList : List AssetRequest) :
    RunOutput :=
  runFrom env assetList.length st 0 assetList

/-- Behaviour of the environment during `clearAllCaches`.
`swControllerPresent` is `'serviceWorker' in navigator &&
navigator.serviceWorker.controller`; `swPostThrows` models the
`MessageChannel`/`postMessage` step throwing; `swWorkerResult` is the
`event.data` posted back by the worker — the code awaits it and discards it.
`keysThrow`/`deleteThrows` model `caches.keys()` rejecting and the
`Promise.all` of `caches.delete` calls rejecting (in which case an arbitrary
subset of deletions succeeded: `survivingCache` is what remains);
`metaClearThrows` models `clearAssetMeta()` rejecting. -/
structure ClearEnv where
  swControllerPresent : Bool
  swPostThrows : Bool
  swWorkerResult : Bool
  keysThrow : Bool
  deleteThrows : Bool
  survivingCache : List String
  metaClearThrows : Bool
deriving Repr, DecidableEq

/-- `clearAllCaches()`: one `try` block that messages the installed worker to
clear its own cache namespace, then deletes every Cache Storage name starting
with `'xr-cache-'` (which includes the Content Cache `'xr-cache-v1'`), then
clears the metadata store, returning `true`; any throw lands in the single
`catch`, which returns `false` with the remaining steps not performed. -/
def clearAllCaches (env : ClearEnv) (st : Store) : Bool × Store :=
  if env.swControllerPresent && env.swPostThrows then (false, st)
  else if env.keysThrow then (false, st)
  else if env.deleteThrows then (false, { st with cache := env.survivingCache })
  else
    let st1 : Store := { st with cache := [] }
    if env.metaClearThrows then (false, st1)
    else (true, { st1 with meta := [] })

/-- The object returned by `getCacheInfo()` on success. -/
structure CacheInfoSnapshot where
  version : String
  files : Nat
  totalSize : Nat
  latestUpdate : Option Nat
  assets : List MetaRecord
deriving Repr, DecidableEq

/-- `getCacheInfo()`: reads all metadata records (`getAllAssetMeta`), sums
`item.size || 0`, takes `Math.max` of the timestamps when there are records
(else `null`), and reports them with the fixed version string; if reading the
store throws, the `catch` returns `null` (`metaReadFails` models that). -/
def getCacheInfo (metaReadFails : Bool) (st : Store) : Option CacheInfoSnapshot :=
  if metaReadFails then none
  else
    some { version := "xr-cache-v1",
           files := st.meta.length,
           totalSize := (st.meta.map (fun r => r.size)).sum,
           latestUpdate :=
             if 0 < st.meta.length
             then some ((st.meta.map (fun r => r.timestamp)).foldr max 0)
             else none,
           assets := st.meta }

/-! ## Helper lemmas about one loop iteration -/

/-- Every branch of the loop body increments `completed` by exactly 1. -/
theorem processAsset_completed (env : Env) (total : Nat) (st : Store)
    (completed : Nat) (a : AssetRequest) :
    (processAsset env total st completed a).completed = completed + 1 := by
  unfold processAsset
  rcases lookupMeta st.meta a.url with _ | rec
  · rcases env a.url with msg | r
    · rfl
    · by_cases hok : r.ok = false
      · simp only [hok, if_true]
      · simp only [hok, if_false]
        rcases r.cachePutError with _ | msg
        · rcases r.readError with _ | msg
          · rcases r.saveMetaError with _ | msg <;> rfl
          · rfl
        · rfl
  · rfl

/-- The result entry of one iteration carries the request's url and name. -/
theorem processAsset_entry_id (env : Env) (total : Nat) (st : Store)
    (completed : Nat) (a : AssetRequest) :
    (processAsset env total st completed a).entry.url = a.url ∧
    (processAsset env total st completed a).entry.name = a.name := by
  unfold processAsset
  rcases lookupMeta st.meta a.url with _ | rec
  · rcases env a.url with msg | r
    · exact ⟨rfl, rfl⟩
    · by_cases hok : r.ok = false
      · simp only [hok, if_true]; exact ⟨rfl, rfl⟩
      · simp only [hok, if_false]
        rcases r.cachePutError with _ | msg
        · rcases r.readError with _ | msg
          · rcases r.saveMetaError with _ | msg <;> exact ⟨rfl, rfl⟩
          · exact ⟨rfl, rfl⟩
        · exact ⟨rfl, rfl⟩
  · exact ⟨rfl, rfl⟩

/-- A cache hit short-circuits the iteration: the stores are untouched and the
three callbacks fire with the stored record's size. -/
theorem processAsset_hit (env : Env) (total : Nat) (st : Store)
    (completed : Nat) (a : AssetRequest) (rec : MetaRecord)
    (h : lookupMeta st.meta a.url = some rec) :
    processAsset env total st completed a =
      { store := st, completed := completed + 1,
        events := [Event.fileStart a.url a.name,
          Event.progress ((completed + 1 : Nat) : ℚ) total a.name,
          Event.fileComplete a.url a.name rec.size],
        entry := ResultEntry.cached a.url a.name rec.size } := by
  unfold processAsset
  rw [h]

/-- On a metadata miss the iteration performs the network fetch. -/
theorem processAsset_miss_fetch (env : Env) (total : Nat) (st : Store)
    (completed : Nat) (a : AssetRequest)
    (h : lookupMeta st.meta a.url = none) :
    Event.fetch a.url ∈ (processAsset env total st completed a).events := by
  unfold processAsset
  rw [h]
  rcases env a.url with msg | r
  · simp
  · by_cases hok : r.ok = false
    · simp [hok]
    · simp only [hok, if_false]
      rcases r.cachePutError with _ | msg
      · rcases r.readError with _ | msg
        · rcases r.saveMetaError with _ | msg <;> simp
        · simp
      · simp

/-- An iteration either leaves the metadata store untouched (and its entry is
not a download), or it is a successful download: the lookup missed and the
store gained exactly one record, keyed by the request's url and carrying the
entry's size. -/
theorem processAsset_meta_dichotomy (env : Env) (total : Nat) (st : Store)
    (completed : Nat) (a : AssetRequest) :
    ((processAsset env total st completed a).entry.isDownloaded = false ∧
      (processAsset env total st completed a).store.meta = st.meta) ∨
    (lookupMeta st.meta a.url = none ∧
      ∃ rec : MetaRecord, rec.url = a.url ∧
        (processAsset env total st completed a).store.meta = putMeta st.meta rec ∧
        (processAsset env total st completed a).entry =
          ResultEntry.downloaded a.url a.name rec.size) := by
  unfold processAsset
  rcases hl : lookupMeta st.meta a.url with _ | rec
  · rcases env a.url with msg | r
    · exact Or.inl ⟨rfl, rfl⟩
    · obtain ⟨ok, status, statusText, len, ct, et, lm, cpe, chunks, re, sme, stime⟩ := r
      cases ok
      · exact Or.inl ⟨rfl, rfl⟩
      · rcases cpe with _ | msg
        · rcases re with _ | msg
          · rcases sme with _ | msg
            · exact Or.inr ⟨rfl,
                ⟨a.url, chunks.sum, ct, et, lm, stime⟩, rfl, rfl, rfl⟩
            · exact Or.inl ⟨rfl, rfl⟩
          · exact Or.inl ⟨rfl, rfl⟩
        · exact Or.inl ⟨rfl, rfl⟩
  · exact Or.inl ⟨rfl, rfl⟩

/-- Existing metadata records survive an iteration unchanged. -/
theorem processAsset_lookup_preserved (env : Env) (total : Nat) (st : Store)
    (completed : Nat) (a : AssetRequest) (u : String) (r : MetaRecord)
    (h : lookupMeta st.meta u = some r) :
    lookupMeta (processAsset env total st completed a).store.meta u = some r := by
  rcases processAsset_meta_dichotomy env total st completed a with
    ⟨_, hmeta⟩ | ⟨hmiss, rec, hurl, hmeta, _⟩
  · rw [hmeta]; exact h
  · rw [hmeta, lookupMeta_putMeta]
    by_cases hu : rec.url = u
    · rw [hurl] at hu
      rw [hu] at hmiss
      rw [hmiss] at h
      exact absurd h (by simp)
    · rw [if_neg hu]; exact h

/-- Existing metadata records survive a whole run unchanged. -/
theorem runFrom_lookup_preserved (env : Env) (total : Nat) :
    ∀ (l : List AssetRequest) (st : Store) (completed : Nat) (u : String)
      (r : MetaRecord), lookupMeta st.meta u = some r →
      lookupMeta (runFrom env total st completed l).store.meta u = some r := by
  intro l
  induction l with
  | nil => intro st completed u r h; exact h
  | cons a rest ih =>
    intro st completed u r h
    exact ih _ _ u r (processAsset_lookup_preserved env total st completed a u r h)

/-! ## Concrete fixtures for witnesses and counterexamples -/

/-- A metadata record already in the store in concrete scenarios. -/
def recU : MetaRecord :=
  { url := "u", size := 42, contentType := none, etag := none,
    lastModified := none, timestamp := 5 }

/-- A successful `200 OK` response with declared length `len`, body chunks
`chunks`, all storage effects succeeding, metadata saved at time `tsave`. -/
def respOk (len : Nat) (chunks : List Nat) (tsave : Nat) : HttpResponse :=
  { ok := true, status := 200, statusText := "OK", contentLength := len,
    contentType := none, etag := none, lastModified := none,
    cachePutError := none, chunks := chunks, readError := none,
    saveMetaError := none, saveTime := tsave }

/-- Every url responds `404 Not Found`. -/
def env404 : Env := fun _ =>
  FetchResult.response
    { respOk 0 [] 0 with ok := false, status := 404, statusText := "Not Found" }

/-- Every url downloads successfully: 1000 declared bytes in 4 chunks of 250. -/
def envOkay : Env := fun _ => FetchResult.response (respOk 1000 [250, 250, 250, 250] 7)

/-- Declared content length 100, but the stream delivers 150 bytes (as happens
for instance when `content-length` counts compressed bytes and the body stream
yields decompressed ones). -/
def envOver : Env := fun _ => FetchResult.response (respOk 100 [150] 3)

/-- The fetch succeeds and the Content Cache `put` completes, but
`saveAssetMeta` rejects afterwards. -/
def envDrift : Env := fun _ =>
  FetchResult.response { respOk 5 [5] 3 with saveMetaError := some "QuotaExceededError" }

/-! ## C1: the run never throws and reports every item -/

/-- The results of a run match the request list pointwise. -/
theorem runFrom_results_match (env : Env) (total : Nat) :
    ∀ (l : List AssetRequest) (st : Store) (completed : Nat),
      List.Forall₂ (fun (res : ResultEntry) (a : AssetRequest) =>
          res.url = a.url ∧ res.name = a.name)
        (runFrom env total st completed l).results l := by
  intro l
  induction l with
  | nil => intro st c; exact List.Forall₂.nil
  | cons a rest ih =>
    intro st c
    exact List.Forall₂.cons (processAsset_entry_id env total st c a) (ih _ _)

/-- C1: for every request list and every per-item outcome the environment can
produce (cache hit, download success, network/HTTP/storage failure),
`prefetchAssets` is a total function (it never throws): it returns exactly one
result entry per request, in input order, each entry carrying its request's
url and display name — so failed items are recorded (via their `error` field)
and the remaining items are still processed. -/
theorem prefetchAssets_never_throws_complete_results (env : Env) (st : Store)
    (assetList : List AssetRequest) :
    (prefetchAssets env st assetList).results.length = assetList.length ∧
    List.Forall₂ (fun (res : ResultEntry) (a : AssetRequest) =>
        res.url = a.url ∧ res.name = a.name)
      (prefetchAssets env st assetList).results assetList :=
  ⟨(runFrom_results_match env assetList.length assetList st 0).length_eq,
   runFrom_results_match env assetList.length assetList st 0⟩

/-! ## C2: cache-hit short circuit -/

/-- C2: when the pipeline reaches a request whose identifier already has a
metadata record, no network fetch happens: `completed` is incremented by 1,
`onProgress` then `onFileComplete` fire with the pre-existing record's size,
and the result entry is `cached` with that size. -/
theorem cache_hit_short_circuit (env : Env) (total : Nat) (st : Store)
    (completed : Nat) (a : AssetRequest) (rec : MetaRecord)
    (h : lookupMeta st.meta a.url = some rec) :
    processAsset env total st completed a =
      { store := st, completed := completed + 1,
        events := [Event.fileStart a.url a.name,
          Event.progress ((completed + 1 : Nat) : ℚ) total a.name,
          Event.fileComplete a.url a.name rec.size],
        entry := ResultEntry.cached a.url a.name rec.size } ∧
    ∀ e ∈ (processAsset env total st completed a).events, e.isFetch = false := by
  have hp := processAsset_hit env total st completed a rec h
  refine ⟨hp, ?_⟩
  rw [hp]
  intro e he
  simp only [List.mem_cons, List.not_mem_nil, or_false] at he
  rcases he with rfl | rfl | rfl <;> rfl

/-- Witness for C2 at a concrete input: the store already has `recU` for url
`"u"`, so even under an all-404 network the item resolves as cached with
size 42 and no fetch occurs. -/
theorem cache_hit_short_circuit_witness :
    processAsset env404 1 { meta := [recU], cache := [] } 0 ⟨"u", "U"⟩ =
      { store := { meta := [recU], cache := [] }, completed := 1,
        events := [Event.fileStart "u" "U",
          Event.progress ((1 : Nat) : ℚ) 1 "U",
          Event.fileComplete "u" "U" recU.size],
        entry := ResultEntry.cached "u" "U" recU.size } ∧
    ∀ e ∈ (processAsset env404 1 { meta := [recU], cache := [] } 0 ⟨"u", "U"⟩).events,
      e.isFetch = false :=
  cache_hit_short_circuit env404 1 { meta := [recU], cache := [] } 0 ⟨"u", "U"⟩ recU
    (by decide)

/-! ## C5: callback order on a failed item -/

/-- C5 counterexample: for the concrete request `b` that 404s, the trace is
`onFileStart, fetch, onFileError, onProgress` — the catch block calls
`onFileError` *before* incrementing `completed` and calling `onProgress`,
not after `onProgress` as claimed. -/
theorem failed_callback_order_counterexample :
    (prefetchAssets env404 { meta := [], cache := [] } [⟨"b", "B"⟩]).events =
      [Event.fileStart "b" "B", Event.fetch "b",
       Event.fileError "b" "B" "HTTP 404: Not Found",
       Event.progress ((1 : Nat) : ℚ) 1 "B"] ∧
    (prefetchAssets env404 { meta := [], cache := [] } [⟨"b", "B"⟩]).events ≠
      [Event.fileStart "b" "B", Event.fetch "b",
       Event.progress ((1 : Nat) : ℚ) 1 "B",
       Event.fileError "b" "B" "HTTP 404: Not Found"] := by
  decide

/-- C5 amended: for every item whose download fails with a network error or a
non-success HTTP status, the callbacks fire in the order `onFileError` (with
identifier, display name and error) first, and then `completed` is
incremented by 1 and `onProgress` is invoked. -/
theorem failed_item_callback_order (env : Env) (total : Nat) (st : Store)
    (completed : Nat) (a : AssetRequest) (msg : String)
    (hmiss : lookupMeta st.meta a.url = none)
    (h : env a.url = FetchResult.netError msg ∨
         ∃ r, env a.url = FetchResult.response r ∧ r.ok = false ∧
              msg = "HTTP " ++ toString r.status ++ ": " ++ r.statusText) :
    processAsset env total st completed a =
      { store := st, completed := completed + 1,
        events := [Event.fileStart a.url a.name, Event.fetch a.url,
          Event.fileError a.url a.name msg,
          Event.progress ((completed + 1 : Nat) : ℚ) total a.name],
        entry := ResultEntry.failed a.url a.name msg } := by
  rcases h with h | ⟨r, hr, hok, hmsg⟩
  · unfold processAsset
    rw [hmiss, h]
    rfl
  · subst hmsg
    obtain ⟨ok, status, statusText, len, ct, et, lm, cpe, chunks, re, sme, stime⟩ := r
    dsimp only at hok
    subst hok
    unfold processAsset
    rw [hmiss, hr]
    rfl

/-- Witness for the amended C5 at a concrete input: the 404 response for `b`. -/
theorem failed_item_callback_order_witness :
    processAsset env404 1 { meta := [], cache := [] } 0 ⟨"b", "B"⟩ =
      { store := { meta := [], cache := [] }, completed := 1,
        events := [Event.fileStart "b" "B", Event.fetch "b",
          Event.fileError "b" "B" "HTTP 404: Not Found",
          Event.progress ((1 : Nat) : ℚ) 1 "B"],
        entry := ResultEntry.failed "b" "B" "HTTP 404: Not Found" } :=
  failed_item_callback_order env404 1 { meta := [], cache := [] } 0 ⟨"b", "B"⟩
    "HTTP 404: Not Found" (by decide)
    (Or.inr ⟨_, rfl, rfl, by decide⟩)

/-! ## C6: saveAssetMeta and the caller-supplied timestamp -/

/-- C6 counterexample: a caller-supplied `timestamp` of 5 is *not* preserved —
with `Date.now() = 10` the stored record's timestamp is 10, because
`{ url, ...meta, timestamp: Date.now() }` writes `timestamp` after the spread. -/
theorem saveAssetMeta_timestamp_counterexample :
    lookupMeta (saveAssetMeta 10 "u"
        { size := 1, contentType := none, etag := none, lastModified := none,
          timestamp := some 5 } []) "u" =
      some { url := "u", size := 1, contentType := none, etag := none,
             lastModified := none, timestamp := 10 } ∧
    (lookupMeta (saveAssetMeta 10 "u"
        { size := 1, contentType := none, etag := none, lastModified := none,
          timestamp := some 5 } []) "u").map (fun r => r.timestamp) ≠ some 5 := by
  decide

/-- C6 amended: the metadata put is an upsert — after it, the identifier maps
to the new record and every other identifier's record is unchanged — and it
always sets `downloadedAtTimestamp` to the current time, overwriting any
caller-supplied timestamp rather than preserving it. -/
theorem saveAssetMeta_upsert_overwrites_timestamp (now : Nat) (url : String)
    (meta : MetaInput) (store : MetaStore) :
    lookupMeta (saveAssetMeta now url meta store) url =
      some { url := url, size := meta.size, contentType := meta.contentType,
             etag := meta.etag, lastModified := meta.lastModified,
             timestamp := now } ∧
    ∀ u : String, u ≠ url →
      lookupMeta (saveAssetMeta now url meta store) u = lookupMeta store u := by
  constructor
  · rw [saveAssetMeta, lookupMeta_putMeta]
    rw [if_pos rfl]
  · intro u hu
    rw [saveAssetMeta, lookupMeta_putMeta]
    exact if_neg fun hc => hu hc.symm

/-- Witness for the amended C6 at a concrete input: upserting over a store
that already holds `recU` for `"u"` replaces it (timestamp 10, not the
caller's 5) and leaves the record for `"v"` alone. -/
theorem saveAssetMeta_upsert_overwrites_timestamp_witness :
    lookupMeta (saveAssetMeta 10 "u"
        { size := 1, contentType := none, etag := none, lastModified := none,
          timestamp := some 5 } [recU]) "u" =
      some { url := "u", size := 1, contentType := none, etag := none,
             lastModified := none, timestamp := 10 } ∧
    lookupMeta (saveAssetMeta 10 "u"
        { size := 1, contentType := none, etag := none, lastModified := none,
          timestamp := some 5 } [recU]) "v" = lookupMeta [recU] "v" :=
  ⟨(saveAssetMeta_upsert_overwrites_timestamp 10 "u"
      { size := 1, contentType := none, etag := none, lastModified := none,
        timestamp := some 5 } [recU]).1,
   (saveAssetMeta_upsert_overwrites_timestamp 10 "u"
      { size := 1, contentType := none, etag := none, lastModified := none,
        timestamp := some 5 } [recU]).2 "v" (by decide)⟩

/-! ## C10: store drift from an ordinary per-item failure -/

/-- C10: an execution with no crash in which the fetch returns a success
status and the Content Cache put completes, but writing the metadata record
then fails: the item is reported as failed, yet the Content Cache retains the
entry for the identifier while the metadata store has no record for it. -/
theorem store_drift_from_per_item_failure :
    (prefetchAssets envDrift { meta := [], cache := [] } [⟨"a", "A"⟩]).results =
      [ResultEntry.failed "a" "A" "QuotaExceededError"] ∧
    "a" ∈ (prefetchAssets envDrift { meta := [], cache := [] } [⟨"a", "A"⟩]).store.cache ∧
    lookupMeta (prefetchAssets envDrift
        { meta := [], cache := [] } [⟨"a", "A"⟩]).store.meta "a" = none := by
  decide

/-! ## C9: a failed iteration writes no metadata -/

/-- A failed iteration implies the metadata lookup missed (the cache-hit
branch cannot fail). -/
theorem processAsset_failed_miss (env : Env) (total : Nat) (st : Store)
    (completed : Nat) (a : AssetRequest)
    (h : (processAsset env total st completed a).entry.isFailed = true) :
    lookupMeta st.meta a.url = none := by
  rcases hl : lookupMeta st.meta a.url with _ | rec
  · rfl
  · rw [processAsset_hit env total st completed a rec hl] at h
    simp [ResultEntry.isFailed] at h

/-- C9: an iteration that ends in the failure path writes no metadata record
(the record is written only after the body has been read to completion), it
leaves the identifier unmapped, and a subsequent run therefore treats the item
as a cache miss and re-attempts the network fetch instead of skipping it. -/
theorem failed_item_leaves_no_metadata (env : Env) (total total' : Nat)
    (st : Store) (completed completed' : Nat) (a : AssetRequest)
    (h : (processAsset env total st completed a).entry.isFailed = true) :
    (processAsset env total st completed a).store.meta = st.meta ∧
    lookupMeta (processAsset env total st completed a).store.meta a.url = none ∧
    Event.fetch a.url ∈
      (processAsset env total' (processAsset env total st completed a).store
        completed' a).events := by
  have hmiss := processAsset_failed_miss env total st completed a h
  have hmeta : (processAsset env total st completed a).store.meta = st.meta := by
    rcases processAsset_meta_dichotomy env total st completed a with
      ⟨_, hm⟩ | ⟨_, rec, _, _, hentry⟩
    · exact hm
    · rw [hentry] at h
      simp [ResultEntry.isFailed] at h
  refine ⟨hmeta, ?_, ?_⟩
  · rw [hmeta]; exact hmiss
  · apply processAsset_miss_fetch
    rw [hmeta]; exact hmiss

/-- Witness for C9 at a concrete input: request `b` 404s from the empty store;
the iteration leaves the metadata store empty and reprocessing fetches again. -/
theorem failed_item_leaves_no_metadata_witness :
    (processAsset env404 1 { meta := [], cache := [] } 0 ⟨"b", "B"⟩).entry.isFailed
        = true ∧
    (processAsset env404 1 { meta := [], cache := [] } 0 ⟨"b", "B"⟩).store.meta
        = ([] : MetaStore) ∧
    lookupMeta (processAsset env404 1
        { meta := [], cache := [] } 0 ⟨"b", "B"⟩).store.meta "b" = none ∧
    Event.fetch "b" ∈
      (processAsset env404 2
        (processAsset env404 1 { meta := [], cache := [] } 0 ⟨"b", "B"⟩).store
        1 ⟨"b", "B"⟩).events := by
  have hfail : (processAsset env404 1
      { meta := [], cache := [] } 0 ⟨"b", "B"⟩).entry.isFailed = true := by decide
  obtain ⟨h1, h2, h3⟩ :=
    failed_item_leaves_no_metadata env404 1 2 { meta := [], cache := [] } 0 1
      ⟨"b", "B"⟩ hfail
  exact ⟨hfail, h1, h2, h3⟩

/-! ## C7: clearAllCaches when the worker-owned clear fails -/

/-- C7 counterexample: with the worker-message step throwing, `clearAllCaches`
returns `false` while the Content Cache and the metadata store still hold
their entries — it does not proceed to clear them. -/
theorem clearAll_worker_failure_counterexample :
    clearAllCaches
        { swControllerPresent := true, swPostThrows := true,
          swWorkerResult := false, keysThrow := false, deleteThrows := false,
          survivingCache := [], metaClearThrows := false }
        { meta := [recU], cache := ["u"] } =
      (false, { meta := [recU], cache := ["u"] }) ∧
    ({ meta := [recU], cache := ["u"] } : Store).meta ≠ [] ∧
    ({ meta := [recU], cache := ["u"] } : Store).cache ≠ [] := by
  decide

/-- C7 amended: if the step that clears the installed-worker-owned cache
namespace throws during `clearAll`, the single `catch` aborts the operation:
it returns `false` with the Content Cache and the Persistent Metadata Store
left untouched, instead of proceeding to clear them and reporting partial
failure. -/
theorem clearAll_worker_failure_aborts (env : ClearEnv) (st : Store)
    (hp : env.swControllerPresent = true) (ht : env.swPostThrows = true) :
    clearAllCaches env st = (false, st) := by
  unfold clearAllCaches
  rw [hp, ht]
  rfl

/-- Witness for the amended C7 at a concrete input. -/
theorem clearAll_worker_failure_aborts_witness :
    clearAllCaches
        { swControllerPresent := true, swPostThrows := true,
          swWorkerResult := false, keysThrow := false, deleteThrows := false,
          survivingCache := [], metaClearThrows := false }
        { meta := [recU], cache := ["u"] } =
      (false, { meta := [recU], cache := ["u"] }) :=
  clearAll_worker_failure_aborts _ _ rfl rfl

/-! ## C8: getCacheInfo is metadata-derived -/

theorem foldr_max_le (l : List Nat) : ∀ t ∈ l, t ≤ l.foldr max 0 := by
  induction l with
  | nil => intro t ht; cases ht
  | cons a rest ih =>
    intro t ht
    rcases List.mem_cons.1 ht with rfl | ht'
    · exact le_max_left _ _
    · exact le_trans (ih t ht') (le_max_right _ _)

theorem foldr_max_mem (l : List Nat) (h : l ≠ []) : l.foldr max 0 ∈ l := by
  induction l with
  | nil => exact absurd rfl h
  | cons a rest ih =>
    rcases eq_or_ne rest [] with rfl | hne
    · simp
    · rcases le_total a (rest.foldr max 0) with hle | hle
      · have : (a :: rest).foldr max 0 = rest.foldr max 0 := max_eq_right hle
        rw [this]
        exact List.mem_cons_of_mem _ (ih hne)
      · have : (a :: rest).foldr max 0 = a := max_eq_left hle
        rw [this]
        exact List.mem_cons_self _ _

/-- C8: `getCacheInfo` is computed solely from the metadata store — its value
is unchanged under any change of the Content Cache — with file count the
number of records, total size the sum of the records' `size` fields, and
latest-update the maximum record timestamp, or `null` when there are no
records. -/
theorem getCacheInfo_metadata_only (m : MetaStore) (c c' : List String) :
    getCacheInfo false { meta := m, cache := c } =
      getCacheInfo false { meta := m, cache := c' } ∧
    ∃ info : CacheInfoSnapshot,
      getCacheInfo false { meta := m, cache := c } = some info ∧
      info.files = m.length ∧
      info.totalSize = (m.map (fun r => r.size)).sum ∧
      (m = [] → info.latestUpdate = none) ∧
      (m ≠ [] → ∃ mx, info.latestUpdate = some mx ∧
        mx ∈ m.map (fun r => r.timestamp) ∧
        ∀ t ∈ m.map (fun r => r.timestamp), t ≤ mx) := by
  refine ⟨rfl, ?_⟩
  refine ⟨_, rfl, rfl, rfl, ?_, ?_⟩
  · rintro rfl
    rfl
  · intro hm
    have hpos : 0 < m.length := List.length_pos.2 hm
    refine ⟨(m.map (fun r => r.timestamp)).foldr max 0, ?_, ?_, foldr_max_le _⟩
    · show (if 0 < m.length then some ((m.map (fun r => r.timestamp)).foldr max 0)
            else none) = _
      rw [if_pos hpos]
    · apply foldr_max_mem
      simpa using hm

/-- Witness for C8 at a concrete input: a two-record store, with the Content
Cache once nonempty and once empty. -/
theorem getCacheInfo_metadata_only_witness :
    getCacheInfo false { meta := [recU], cache := ["x"] } =
      getCacheInfo false { meta := [recU], cache := [] } ∧
    ∃ info : CacheInfoSnapshot,
      getCacheInfo false { meta := [recU], cache := ["x"] } = some info ∧
      ∃ mx, info.latestUpdate = some mx ∧
        mx ∈ [recU].map (fun r => r.timestamp) ∧
        ∀ t ∈ [recU].map (fun r => r.timestamp), t ≤ mx := by
  obtain ⟨hc, info, heq, -, -, -, hmax⟩ :=
    getCacheInfo_metadata_only [recU] ["x"] []
  exact ⟨hc, info, heq, hmax (by decide)⟩

/-! ## C3: idempotent re-run -/

/-- Every result entry is a cache hit, a download, or a failure. -/
theorem ResultEntry.trichotomy (res : ResultEntry) :
    res.isCached = true ∨ res.isDownloaded = true ∨ res.isFailed = true := by
  cases res
  · exact Or.inl rfl
  · exact Or.inr (Or.inl rfl)
  · exact Or.inr (Or.inr rfl)

/-- A downloaded entry is not a failed entry. -/
theorem ResultEntry.not_failed_of_downloaded (res : ResultEntry)
    (h : res.isDownloaded = true) : res.isFailed = false := by
  cases res
  · rfl
  · rfl
  · exact absurd h (by simp [ResultEntry.isDownloaded])

/-- On a metadata miss the entry cannot be a cache hit. -/
theorem processAsset_miss_not_cached (env : Env) (total : Nat) (st : Store)
    (completed : Nat) (a : AssetRequest)
    (h : lookupMeta st.meta a.url = none) :
    (processAsset env total st completed a).entry.isCached = false := by
  unfold processAsset
  rw [h]
  rcases env a.url with msg | r
  · rfl
  · obtain ⟨ok, status, statusText, len, ct, et, lm, cpe, chunks, re, sme, stime⟩ := r
    cases ok
    · rfl
    · rcases cpe with _ | msg
      · rcases re with _ | msg
        · rcases sme with _ | msg <;> rfl
        · rfl
      · rfl

/-- If every request already has a metadata record, a run performs no network
access, leaves the stores untouched, and reports each item as cached with its
record's size. -/
theorem runFrom_all_hits (env : Env) (total : Nat) :
    ∀ (l : List AssetRequest) (st : Store) (completed : Nat),
      (∀ a ∈ l, (lookupMeta st.meta a.url).isSome = true) →
      (runFrom env total st completed l).store = st ∧
      (∀ e ∈ (runFrom env total st completed l).events, e.isFetch = false) ∧
      List.Forall₂ (fun (a : AssetRequest) (res : ResultEntry) =>
          ∀ rec, lookupMeta st.meta a.url = some rec →
            res = ResultEntry.cached a.url a.name rec.size)
        l (runFrom env total st completed l).results := by
  intro l
  induction l with
  | nil =>
    intro st completed _
    exact ⟨rfl, fun e he => absurd he (List.not_mem_nil e), List.Forall₂.nil⟩
  | cons a rest ih =>
    intro st completed hall
    obtain ⟨rec, hrec⟩ :=
      Option.isSome_iff_exists.1 (hall a (List.mem_cons_self a rest))
    have hstep := processAsset_hit env total st completed a rec hrec
    obtain ⟨ihst, ihev, ihF⟩ :=
      ih st (completed + 1) (fun b hb => hall b (List.mem_cons_of_mem a hb))
    refine ⟨?_, ?_, ?_⟩
    · show (runFrom env total (processAsset env total st completed a).store
          (processAsset env total st completed a).completed rest).store = st
      rw [hstep]
      exact ihst
    · intro e he
      have he' : e ∈ (processAsset env total st completed a).events ++
          (runFrom env total (processAsset env total st completed a).store
            (processAsset env total st completed a).completed rest).events := he
      rcases List.mem_append.1 he' with he1 | he2
      · rw [hstep] at he1
        simp only [List.mem_cons, List.not_mem_nil, or_false] at he1
        rcases he1 with rfl | rfl | rfl <;> rfl
      · rw [hstep] at he2
        exact ihev e he2
    · refine List.Forall₂.cons ?_ ?_
      · intro rec' hrec'
        have hee : rec = rec' := Option.some.inj (hrec.symm.trans hrec')
        subst hee
        rw [hstep]
      · show List.Forall₂ _ rest
          (runFrom env total (processAsset env total st completed a).store
            (processAsset env total st completed a).completed rest).results
        rw [hstep]
        exact ihF

/-- After any run, every non-failed item has a metadata record for its url in
the final store, whose size is the size the run reported for that item. -/
theorem runFrom_success_lookup (env : Env) (total : Nat) :
    ∀ (l : List AssetRequest) (st : Store) (completed : Nat),
      List.Forall₂ (fun (a : AssetRequest) (res : ResultEntry) =>
          res.isFailed = false →
          ∃ rec, lookupMeta (runFrom env total st completed l).store.meta a.url
              = some rec ∧ res.size? = some rec.size)
        l (runFrom env total st completed l).results := by
  intro l
  induction l with
  | nil => intro st completed; exact List.Forall₂.nil
  | cons a rest ih =>
    intro st completed
    refine List.Forall₂.cons ?_ ?_
    · intro hnf
      rcases hl : lookupMeta st.meta a.url with _ | rec
      · rcases processAsset_meta_dichotomy env total st completed a with
          ⟨hnd, -⟩ | ⟨-, rec, hurl, hmeta, hentry⟩
        · have hnc := processAsset_miss_not_cached env total st completed a hl
          rcases ResultEntry.trichotomy (processAsset env total st completed a).entry
            with hc | hd | hf
          · simp [hnc] at hc
          · simp [hnd] at hd
          · simp [hf] at hnf
        · refine ⟨rec, ?_, ?_⟩
          · exact runFrom_lookup_preserved env total rest
              (processAsset env total st completed a).store
              (processAsset env total st completed a).completed a.url rec
              (by rw [hmeta, lookupMeta_putMeta, if_pos hurl])
          · rw [hentry]; rfl
      · have hstep := processAsset_hit env total st completed a rec hl
        refine ⟨rec, ?_, ?_⟩
        · exact runFrom_lookup_preserved env total rest
            (processAsset env total st completed a).store
            (processAsset env total st completed a).completed a.url rec
            (by rw [hstep]; exact hl)
        · rw [hstep]
          rfl
    · exact ih _ _

/-- C3: after a first run in which every item downloaded successfully, a
second run with the same request list performs zero network requests, every
item resolves as cached, and the size reported for each item equals the size
reported in the first run. -/
theorem idempotent_rerun (env : Env) (st : Store) (assetList : List AssetRequest)
    (h : ∀ res ∈ (prefetchAssets env st assetList).results,
      res.isDownloaded = true) :
    (∀ res ∈ (prefetchAssets env (prefetchAssets env st assetList).store
        assetList).results, res.isCached = true) ∧
    (∀ e ∈ (prefetchAssets env (prefetchAssets env st assetList).store
        assetList).events, e.isFetch = false) ∧
    ∀ (i : Nat)
      (h2 : i < (prefetchAssets env (prefetchAssets env st assetList).store
        assetList).results.length)
      (h1 : i < (prefetchAssets env st assetList).results.length),
      ((prefetchAssets env (prefetchAssets env st assetList).store
          assetList).results.get ⟨i, h2⟩).size? =
        ((prefetchAssets env st assetList).results.get ⟨i, h1⟩).size? := by
  unfold prefetchAssets
  have hF1 := runFrom_success_lookup env assetList.length assetList st 0
  rw [List.forall₂_iff_get] at hF1
  obtain ⟨hlen1, hget1⟩ := hF1
  have hhits : ∀ a ∈ assetList,
      (lookupMeta (runFrom env assetList.length st 0 assetList).store.meta
        a.url).isSome = true := by
    intro a ha
    obtain ⟨⟨i, hi⟩, rfl⟩ := List.mem_iff_get.1 ha
    have hi' : i < (runFrom env assetList.length st 0 assetList).results.length :=
      hlen1 ▸ hi
    have hdl : ((runFrom env assetList.length st 0 assetList).results.get
        ⟨i, hi'⟩).isDownloaded = true :=
      h _ (List.get_mem _ _ _)
    obtain ⟨rec, hrec, -⟩ :=
      hget1 i hi hi' (ResultEntry.not_failed_of_downloaded _ hdl)
    rw [hrec]
    rfl
  obtain ⟨-, hnofetch2, hF2⟩ :=
    runFrom_all_hits env assetList.length assetList
      (runFrom env assetList.length st 0 assetList).store 0 hhits
  rw [List.forall₂_iff_get] at hF2
  obtain ⟨hlen2, hget2⟩ := hF2
  refine ⟨?_, hnofetch2, ?_⟩
  · intro res hres
    obtain ⟨⟨i, hi2⟩, rfl⟩ := List.mem_iff_get.1 hres
    have hi : i < assetList.length := hlen2 ▸ hi2
    obtain ⟨rec, hrec⟩ :=
      Option.isSome_iff_exists.1 (hhits _ (List.get_mem _ _ _))
    rw [hget2 i hi hi2 rec hrec]
    rfl
  · intro i h2 h1
    have hi : i < assetList.length := hlen2 ▸ h2
    obtain ⟨rec, hrec⟩ :=
      Option.isSome_iff_exists.1 (hhits _ (List.get_mem _ _ _))
    have hdl : ((runFrom env assetList.length st 0 assetList).results.get
        ⟨i, h1⟩).isDownloaded = true :=
      h _ (List.get_mem _ _ _)
    obtain ⟨rec', hrec', hsz⟩ :=
      hget1 i hi h1 (ResultEntry.not_failed_of_downloaded _ hdl)
    have hee : rec = rec' := Option.some.inj (hrec.symm.trans hrec')
    subst hee
    rw [hget2 i hi h2 rec hrec, hsz]
    rfl

/-- Witness for C3 at a concrete input: two urls downloaded by the first run
under `envOkay` resolve as cached with equal sizes on the second run. -/
theorem idempotent_rerun_witness :
    (∀ res ∈ (prefetchAssets envOkay { meta := [], cache := [] }
        [⟨"a", "A"⟩, ⟨"c", "C"⟩]).results, res.isDownloaded = true) ∧
    (∀ res ∈ (prefetchAssets envOkay
        (prefetchAssets envOkay { meta := [], cache := [] }
          [⟨"a", "A"⟩, ⟨"c", "C"⟩]).store
        [⟨"a", "A"⟩, ⟨"c", "C"⟩]).results, res.isCached = true) ∧
    ∀ e ∈ (prefetchAssets envOkay
        (prefetchAssets envOkay { meta := [], cache := [] }
          [⟨"a", "A"⟩, ⟨"c", "C"⟩]).store
        [⟨"a", "A"⟩, ⟨"c", "C"⟩]).events, e.isFetch = false := by
  have hall : ∀ res ∈ (prefetchAssets envOkay { meta := [], cache := [] }
      [⟨"a", "A"⟩, ⟨"c", "C"⟩]).results, res.isDownloaded = true := by decide
  obtain ⟨hc, hf, -⟩ :=
    idempotent_rerun envOkay { meta := [], cache := [] }
      [⟨"a", "A"⟩, ⟨"c", "C"⟩] hall
  exact ⟨hall, hc, hf⟩

/-! ## C4: progress values -/

theorem progressValues_append (l₁ l₂ : List Event) :
    progressValues (l₁ ++ l₂) = progressValues l₁ ++ progressValues l₂ :=
  List.filterMap_append l₁ l₂ Event.progressValue?

theorem progressValues_cons_none (e : Event) (es : List Event)
    (h : e.progressValue? = none) :
    progressValues (e :: es) = progressValues es := by
  simp [progressValues, List.filterMap_cons, h]

theorem progressValues_cons_progress (v : ℚ) (t : Nat) (n : String)
    (es : List Event) :
    progressValues (Event.progress v t n :: es) = v :: progressValues es := rfl

theorem mem_of_opt_getLast {α : Type} {l : List α} {y : α}
    (h : y ∈ l.getLast?) : y ∈ l := by
  obtain ⟨hne, hy⟩ := List.mem_getLast?_eq_getLast h
  subst hy
  exact List.getLast_mem hne

/-- Appending the terminal progress value to an already bounded, sorted chunk
trace keeps it sorted, keeps it within the bounds, and makes the terminal
value the last one. -/
theorem chain_append_single (pvc : List ℚ) (lo x : ℚ) (hlox : lo ≤ x)
    (hch : List.Chain' (· ≤ ·) pvc) (hbd : ∀ v ∈ pvc, lo ≤ v ∧ v ≤ x) :
    List.Chain' (· ≤ ·) (pvc ++ [x]) ∧
    (∀ v ∈ pvc ++ [x], lo ≤ v ∧ v ≤ x) ∧
    (pvc ++ [x]).getLast? = some x := by
  refine ⟨?_, ?_, ?_⟩
  · refine List.Chain'.append hch (List.chain'_singleton x) ?_
    intro y hy z hz
    have hy' : y ∈ pvc := mem_of_opt_getLast hy
    have hz' : x = z := by simpa using hz
    subst hz'
    exact (hbd y hy').2
  · intro v hv
    rcases List.mem_append.1 hv with hv | hv
    · exact hbd v hv
    · have hvx : v = x := by simpa using hv
      subst hvx
      exact ⟨hlox, le_refl v⟩
  · rw [List.getLast?_append_of_ne_nil _ (by simp)]
    rfl

/-- With no declared content length the body-read loop reports no progress. -/
theorem chunkEvents_len_zero (completed total : Nat) (name : String) :
    ∀ (chunks : List Nat) (received : Nat),
      chunkEvents completed total name 0 received chunks = [] := by
  intro chunks
  induction chunks with
  | nil => intro received; rfl
  | cons c rest ih => intro received; simp [chunkEvents, ih]

/-- The per-chunk progress values sit between
`completed + received/L` and `completed + (received + sum)/L` and are sorted:
`receivedLength` only grows. -/
theorem chunkEvents_values (completed total : Nat) (name : String) (L : Nat)
    (hL : 0 < L) :
    ∀ (chunks : List Nat) (received : Nat),
      (∀ v ∈ progressValues (chunkEvents completed total name L received chunks),
        (completed : ℚ) + (received : ℚ) / (L : ℚ) ≤ v ∧
          v ≤ (completed : ℚ) + ((received : ℚ) + (chunks.sum : ℚ)) / (L : ℚ)) ∧
      List.Chain' (· ≤ ·)
        (progressValues (chunkEvents completed total name L received chunks)) := by
  have hLQ : (0 : ℚ) < (L : ℚ) := by exact_mod_cast hL
  intro chunks
  induction chunks with
  | nil =>
    intro received
    exact ⟨fun v hv => absurd hv (List.not_mem_nil v), List.chain'_nil⟩
  | cons c rest ih =>
    intro received
    have hred : chunkEvents completed total name L received (c :: rest) =
        Event.progress ((completed : ℚ) + ((received + c : Nat) : ℚ) / (L : ℚ))
            total name ::
          chunkEvents completed total name L (received + c) rest := by
      simp only [chunkEvents]
      rw [if_pos hL]
      rfl
    obtain ⟨ihbd, ihch⟩ := ih (received + c)
    rw [hred, progressValues_cons_progress]
    have hstep : ∀ x y : ℚ, x ≤ y →
        (completed : ℚ) + x / (L : ℚ) ≤ (completed : ℚ) + y / (L : ℚ) :=
      fun x y hxy => add_le_add_left ((div_le_div_iff_of_pos_right hLQ).2 hxy) _
    constructor
    · intro v hv
      rcases List.mem_cons.1 hv with rfl | hv'
      · constructor
        · refine hstep _ _ ?_
          rw [Nat.cast_add]
          linarith [Nat.cast_nonneg (α := ℚ) c]
        · refine hstep _ _ ?_
          rw [List.sum_cons, Nat.cast_add, Nat.cast_add]
          linarith [Nat.cast_nonneg (α := ℚ) rest.sum]
      · obtain ⟨hlo, hhi⟩ := ihbd v hv'
        constructor
        · refine le_trans (hstep _ _ ?_) hlo
          rw [Nat.cast_add]
          linarith [Nat.cast_nonneg (α := ℚ) c]
        · refine le_trans hhi (hstep _ _ ?_)
          rw [List.sum_cons, Nat.cast_add, Nat.cast_add]
          linarith
    · refine List.chain'_cons'.2 ⟨?_, ihch⟩
      intro y hy
      exact (ihbd y (List.mem_of_mem_head? hy)).1

/-- In every branch of the loop body, the `onProgress` first arguments are the
per-chunk values of a body-read loop (possibly none) followed by the single
integral value `completed + 1`; in the branches that reach the read loop, the
declared length and chunks come from the fetched response. -/
theorem processAsset_progressValues (env : Env) (total : Nat) (st : Store)
    (completed : Nat) (a : AssetRequest) :
    ∃ (L : Nat) (chunks : List Nat),
      (0 < L → ∃ r, env a.url = FetchResult.response r ∧
        r.contentLength = L ∧ r.chunks = chunks) ∧
      progressValues (processAsset env total st completed a).events =
        progressValues (chunkEvents completed total a.name L 0 chunks) ++
          [((completed + 1 : Nat) : ℚ)] := by
  unfold processAsset
  rcases hl : lookupMeta st.meta a.url with _ | rec
  · rcases he : env a.url with msg | r
    · exact ⟨0, [], fun h => absurd h (Nat.lt_irrefl 0), rfl⟩
    · obtain ⟨ok, status, statusText, len, ct, et, lm, cpe, chunks, re, sme, stime⟩ := r
      cases ok
      · exact ⟨0, [], fun h => absurd h (Nat.lt_irrefl 0), rfl⟩
      · rcases cpe with _ | msg
        · rcases re with _ | msg
          · rcases sme with _ | msg
            · refine ⟨len, chunks, fun h => ⟨_, rfl, rfl, rfl⟩, ?_⟩
              show progressValues (Event.fileStart a.url a.name ::
                  Event.fetch a.url ::
                  (chunkEvents completed total a.name len 0 chunks ++
                    [Event.progress ((completed + 1 : Nat) : ℚ) total a.name,
                     Event.fileComplete a.url a.name chunks.sum])) = _
              rw [progressValues_cons_none (Event.fileStart a.url a.name) _ rfl,
                progressValues_cons_none (Event.fetch a.url) _ rfl,
                progressValues_append]
              rfl
            · refine ⟨len, chunks, fun h => ⟨_, rfl, rfl, rfl⟩, ?_⟩
              show progressValues (Event.fileStart a.url a.name ::
                  Event.fetch a.url ::
                  (chunkEvents completed total a.name len 0 chunks ++
                    catchEvents a.url a.name completed total msg)) = _
              rw [progressValues_cons_none (Event.fileStart a.url a.name) _ rfl,
                progressValues_cons_none (Event.fetch a.url) _ rfl,
                progressValues_append]
              rfl
          · refine ⟨len, chunks, fun h => ⟨_, rfl, rfl, rfl⟩, ?_⟩
            show progressValues (Event.fileStart a.url a.name ::
                Event.fetch a.url ::
                (chunkEvents completed total a.name len 0 chunks ++
                  catchEvents a.url a.name completed total msg)) = _
            rw [progressValues_cons_none (Event.fileStart a.url a.name) _ rfl,
              progressValues_cons_none (Event.fetch a.url) _ rfl,
              progressValues_append]
            rfl
        · exact ⟨0, [], fun h => absurd h (Nat.lt_irrefl 0), rfl⟩
  · exact ⟨0, [], fun h => absurd h (Nat.lt_irrefl 0), rfl⟩

/-- Per item: under the delivered-at-most-declared hypothesis, the item's
progress values are sorted, lie in `[completed, completed + 1]`, and the last
one is exactly `completed + 1`. -/
theorem processAsset_progress_shape (env : Env) (total : Nat) (st : Store)
    (completed : Nat) (a : AssetRequest)
    (henv : ∀ r, env a.url = FetchResult.response r →
      0 < r.contentLength → r.chunks.sum ≤ r.contentLength) :
    List.Chain' (· ≤ ·)
        (progressValues (processAsset env total st completed a).events) ∧
    (∀ v ∈ progressValues (processAsset env total st completed a).events,
      (completed : ℚ) ≤ v ∧ v ≤ (completed : ℚ) + 1) ∧
    (progressValues (processAsset env total st completed a).events).getLast? =
      some ((completed : ℚ) + 1) := by
  obtain ⟨L, chunks, hLr, hpv⟩ :=
    processAsset_progressValues env total st completed a
  have hx : ((completed + 1 : Nat) : ℚ) = (completed : ℚ) + 1 := by
    push_cast
    ring
  have hone : (completed : ℚ) ≤ (completed : ℚ) + 1 := by linarith
  rw [hpv, hx]
  rcases Nat.eq_zero_or_pos L with rfl | hL
  · rw [chunkEvents_len_zero completed total a.name chunks 0]
    exact chain_append_single (progressValues []) _ _ hone List.chain'_nil
      (fun v hv => absurd hv (List.not_mem_nil v))
  · obtain ⟨r, hr, hlen, hchunks⟩ := hLr hL
    have hsum : chunks.sum ≤ L := by
      have hs := henv r hr (by rw [hlen]; exact hL)
      rw [hchunks, hlen] at hs
      exact hs
    have hLQ : (0 : ℚ) < (L : ℚ) := by exact_mod_cast hL
    obtain ⟨hbd, hch⟩ := chunkEvents_values completed total a.name L hL chunks 0
    refine chain_append_single _ _ _ hone hch ?_
    intro v hv
    obtain ⟨hlo, hhi⟩ := hbd v hv
    constructor
    · rw [Nat.cast_zero, zero_div, add_zero] at hlo
      exact hlo
    · rw [Nat.cast_zero, zero_add] at hhi
      have hs : (chunks.sum : ℚ) / (L : ℚ) ≤ 1 :=
        (div_le_one hLQ).2 (by exact_mod_cast hsum)
      linarith

/-- Whole-run progress values are sorted and lie within
`[completed, completed + number of items]`. -/
theorem runFrom_progress_props (env : Env) (total : Nat)
    (henv : ∀ u r, env u = FetchResult.response r →
      0 < r.contentLength → r.chunks.sum ≤ r.contentLength) :
    ∀ (l : List AssetRequest) (st : Store) (completed : Nat),
      List.Chain' (· ≤ ·)
          (progressValues (runFrom env total st completed l).events) ∧
      ∀ v ∈ progressValues (runFrom env total st completed l).events,
        (completed : ℚ) ≤ v ∧ v ≤ (completed : ℚ) + (l.length : ℚ) := by
  intro l
  induction l with
  | nil =>
    intro st completed
    exact ⟨List.chain'_nil, fun v hv => absurd hv (List.not_mem_nil v)⟩
  | cons a rest ih =>
    intro st completed
    obtain ⟨hch1, hbd1, hlast1⟩ :=
      processAsset_progress_shape env total st completed a
        (fun r hr => henv a.url r hr)
    have hev : (runFrom env total st completed (a :: rest)).events =
        (processAsset env total st completed a).events ++
          (runFrom env total (processAsset env total st completed a).store
            (processAsset env total st completed a).completed rest).events := rfl
    rw [hev, progressValues_append, processAsset_completed]
    obtain ⟨hch2, hbd2⟩ :=
      ih (processAsset env total st completed a).store (completed + 1)
    constructor
    · refine List.Chain'.append hch1 hch2 ?_
      intro y hy z hz
      have hy' : (completed : ℚ) + 1 = y := by
        rw [hlast1] at hy
        simpa using hy
      subst hy'
      have hz' := (hbd2 z (List.mem_of_mem_head? hz)).1
      push_cast at hz'
      linarith
    · intro v hv
      rcases List.mem_append.1 hv with hv | hv
      · obtain ⟨hlo, hhi⟩ := hbd1 v hv
        refine ⟨hlo, le_trans hhi ?_⟩
        rw [List.length_cons]
        push_cast
        linarith [Nat.cast_nonneg (α := ℚ) rest.length]
      · obtain ⟨hlo, hhi⟩ := hbd2 v hv
        push_cast at hlo hhi
        rw [List.length_cons]
        push_cast
        exact ⟨by linarith, by linarith⟩

/-- C4 counterexample: with declared content length 100 but 150 bytes
delivered (e.g., `content-length` counting compressed bytes while the body
stream yields decompressed ones), a single-item run's `onProgress` first
arguments are `3/2` then `1`: they decrease, and `3/2` exceeds the total 1. -/
theorem progress_monotone_counterexample :
    progressValues (prefetchAssets envOver { meta := [], cache := [] }
        [⟨"a", "A"⟩]).events = [3 / 2, 1] ∧
    ¬ List.Chain' (· ≤ ·) (progressValues (prefetchAssets envOver
        { meta := [], cache := [] } [⟨"a", "A"⟩]).events) ∧
    ∃ v ∈ progressValues (prefetchAssets envOver { meta := [], cache := [] }
        [⟨"a", "A"⟩]).events, ((1 : Nat) : ℚ) < v := by
  have hc : chunkEvents 0 1 "A" 100 0 [150] =
      [Event.progress (3 / 2 : ℚ) 1 "A"] := by
    simp only [chunkEvents]
    norm_num
  have h : progressValues (prefetchAssets envOver { meta := [], cache := [] }
      [⟨"a", "A"⟩]).events = [3 / 2, 1] := by
    show progressValues ((Event.fileStart "a" "A" :: Event.fetch "a" ::
        (chunkEvents 0 1 "A" 100 0 [150] ++
          [Event.progress ((0 + 1 : Nat) : ℚ) 1 "A",
           Event.fileComplete "a" "A" 150])) ++ []) = [3 / 2, 1]
    rw [List.append_nil,
      progressValues_cons_none (Event.fileStart "a" "A") _ rfl,
      progressValues_cons_none (Event.fetch "a") _ rfl,
      progressValues_append, hc]
    show ([3 / 2] : List ℚ) ++ [((0 + 1 : Nat) : ℚ)] = [3 / 2, 1]
    norm_num
  refine ⟨h, ?_, ?_⟩
  · rw [h]
    simp only [List.chain'_cons, List.chain'_singleton, and_true]
    norm_num
  · exact ⟨3 / 2, by rw [h]; exact List.mem_cons_self _ _, by norm_num⟩

/-- C4 amended: provided every fetched response delivers at most its declared
content length when one is declared, the first argument of successive
`onProgress` invocations within a single run is monotonically non-decreasing
and never exceeds the total number of requests; and (unconditionally) the
final `onProgress` call of each item carries exactly the item's starting
completed count plus 1. -/
theorem progress_monotone_bounded (env : Env) (st : Store)
    (assetList : List AssetRequest)
    (henv : ∀ u r, env u = FetchResult.response r →
      0 < r.contentLength → r.chunks.sum ≤ r.contentLength) :
    List.Chain' (· ≤ ·)
      (progressValues (prefetchAssets env st assetList).events) ∧
    (∀ v ∈ progressValues (prefetchAssets env st assetList).events,
      v ≤ (assetList.length : ℚ)) ∧
    ∀ (total : Nat) (st' : Store) (completed : Nat) (a : AssetRequest),
      (progressValues (processAsset env total st' completed a).events).getLast?
        = some ((completed : ℚ) + 1) := by
  obtain ⟨hch, hbd⟩ :=
    runFrom_progress_props env assetList.length henv assetList st 0
  refine ⟨hch, ?_, ?_⟩
  · intro v hv
    have hv2 := (hbd v hv).2
    rw [Nat.cast_zero, zero_add] at hv2
    exact hv2
  · intro total st' completed a
    exact (processAsset_progress_shape env total st' completed a
      (fun r hr => henv a.url r hr)).2.2

/-- Witness for the amended C4 at a concrete input: a single 1000-byte
download delivered in 4 chunks of 250. -/
theorem progress_monotone_bounded_witness :
    (∀ u r, envOkay u = FetchResult.response r →
      0 < r.contentLength → r.chunks.sum ≤ r.contentLength) ∧
    List.Chain' (· ≤ ·) (progressValues (prefetchAssets envOkay
      { meta := [], cache := [] } [⟨"a", "A"⟩]).events) ∧
    ∀ v ∈ progressValues (prefetchAssets envOkay
      { meta := [], cache := [] } [⟨"a", "A"⟩]).events,
      v ≤ (([⟨"a", "A"⟩] : List AssetRequest).length : ℚ) := by
  have henv : ∀ u r, envOkay u = FetchResult.response r →
      0 < r.contentLength → r.chunks.sum ≤ r.contentLength := by
    intro u r hr
    injection hr with h
    subst h
    intro _
    decide
  obtain ⟨hch, hbd, -⟩ :=
    progress_monotone_bounded envOkay { meta := [], cache := [] }
      [⟨"a", "A"⟩] henv
  exact ⟨henv, hch, hbd⟩

end XRCache
